import Mathlib

/-!
Verification of the `veranda` RNG library (`src/lib.rs`).

The library exposes two `rand`-style generators:

* `SystemRng` — holds a construction timestamp; every draw hashes battery
  voltage, battery current, the elapsed time since construction and the
  system power-up counter with a freshly built `AHasher`.
* `AdiRng` — additionally holds a borrowed list of ADI ports whose raw
  readings are written to the hasher first, in configuration order.

The hash function itself (`ahash::AHasher`) is an external dependency, so it
is modelled abstractly: a hasher is its sequence of `write_*` calls (a trace
of tagged words), and finalization applies an arbitrary function
`H : List WriteOp → ℕ` (standing for the 64-bit `finish`) to that trace.
All ambient hardware reads (battery telemetry, the monotonic clock, the
VEX SDK device reads) are supplied by an explicit environment record.
-/

/-- The ambient hardware/system state sampled during one draw.
Each field models one of the external collaborators called by the code:
`battery::voltage()`, `battery::current()` (f64 values, modelled as exact
rationals), the monotonic clock behind `Instant` (microseconds),
`vexSystemPowerupTimeGet()` (u64), and the VEX SDK pair
`vexDeviceGetByIndex` / `vexDeviceAdiValueGet` (device handles are opaque
numbers, readings are i32 values modelled as `Int`). -/
structure Env where
  voltage : ℚ
  current : ℚ
  nowMicros : ℕ
  powerupTime : ℕ
  deviceByIndex : ℕ → ℕ
  adiValueGet : ℕ → ℕ → ℤ

/-- One write call on the hash accumulator, tagged with the width used by
the source (`write_i32`, `write_u32`, `write_u64`, `write_u128`). -/
inductive WriteOp where
  | i32 (v : ℤ)
  | u32 (v : ℕ)
  | u64 (v : ℕ)
  | u128 (v : ℕ)
deriving DecidableEq

/-- The abstract hash accumulator: the sequence of writes it has received,
in order.  `BuildHasherDefault::<AHasher>::default().build_hasher()` yields
the empty trace. -/
structure Hasher where
  writes : List WriteOp
deriving DecidableEq

def Hasher.new : Hasher := ⟨[]⟩

def Hasher.write_i32 (h : Hasher) (v : ℤ) : Hasher := ⟨h.writes ++ [.i32 v]⟩

def Hasher.write_u32 (h : Hasher) (v : ℕ) : Hasher := ⟨h.writes ++ [.u32 v]⟩

def Hasher.write_u64 (h : Hasher) (v : ℕ) : Hasher := ⟨h.writes ++ [.u64 v]⟩

def Hasher.write_u128 (h : Hasher) (v : ℕ) : Hasher := ⟨h.writes ++ [.u128 v]⟩

/-- Finalization: apply the abstract 64-bit hash function to the trace. -/
def Hasher.finish (H : List WriteOp → ℕ) (h : Hasher) : ℕ := H h.writes

/-- The Rust cast `(x : f64) as u32` for a finite value: truncate toward
zero and saturate into `[0, 2^32)`.  Used for
`(battery::voltage() * 1000.0) as u32` and the analogous current cast. -/
def f64AsU32 (x : ℚ) : ℕ :=
  if x < 0 then 0 else min (Int.toNat ⌊x⌋) (2 ^ 32 - 1)

/-- The model of `vexide_core::time::Instant`: the monotonic-clock reading,
in microseconds, taken at construction. -/
def elapsedMicros (env : Env) (time_of_creation : ℕ) : ℕ :=
  env.nowMicros - time_of_creation

/-- The error type of `rand::Error`.  The library never constructs it. -/
inductive RandError where
  | mk
deriving DecidableEq

/-- A `vexide_devices::adi::AdiPort`: its port number and, when the port
lives on an ADI expander, the expander's smart-port number. -/
structure AdiPort where
  number : ℕ
  expander_number : Option ℕ
deriving DecidableEq

/-- The model of
`vexDeviceAdiValueGet(vexDeviceGetByIndex(port.expander_number().unwrap_or(21) as _), port.number() as _)`:
the raw i32 reading of one configured port. -/
def readAdiPort (env : Env) (port : AdiPort) : ℤ :=
  env.adiValueGet (env.deviceByIndex (port.expander_number.getD 21)) port.number

/-- The struct `SystemRng`: the system-metrics generator, holding only its
construction timestamp (`time_of_creation: Instant`). -/
structure SystemRng where
  time_of_creation : ℕ
deriving DecidableEq

/-- The struct `AdiRng`: the port-sampling generator, holding the borrowed port list
and its construction timestamp. -/
structure AdiRng where
  ports : List AdiPort
  time_of_creation : ℕ
deriving DecidableEq

/-- The hasher built by `SystemRng::hash_value` just before `finish`:
write the two scaled battery values, the elapsed microseconds and the
power-up counter into a fresh accumulator. -/
def SystemRng.mixHasher (env : Env) (self : SystemRng) : Hasher :=
  let hasher := Hasher.new
  let hasher := hasher.write_u32 (f64AsU32 (env.voltage * 1000))
  let hasher := hasher.write_u32 (f64AsU32 (env.current * 1000))
  let hasher := hasher.write_u128 (elapsedMicros env self.time_of_creation)
  let hasher := hasher.write_u64 env.powerupTime
  hasher

/-- The method `SystemRng::hash_value`. -/
def SystemRng.hash_value (H : List WriteOp → ℕ) (env : Env) (self : SystemRng) : ℕ :=
  (SystemRng.mixHasher env self).finish H

/-- The hasher built by `AdiRng::hash_value` just before `finish`: write
each configured port's raw reading (in configuration order), then the same
four system metrics as `SystemRng`. -/
def AdiRng.mixHasher (env : Env) (self : AdiRng) : Hasher :=
  let values := self.ports.map (readAdiPort env)
  let hasher := Hasher.new
  let hasher := values.foldl (fun h v => h.write_i32 v) hasher
  let hasher := hasher.write_u32 (f64AsU32 (env.voltage * 1000))
  let hasher := hasher.write_u32 (f64AsU32 (env.current * 1000))
  let hasher := hasher.write_u128 (elapsedMicros env self.time_of_creation)
  let hasher := hasher.write_u64 env.powerupTime
  hasher

/-- The method `AdiRng::hash_value`. -/
def AdiRng.hash_value (H : List WriteOp → ℕ) (env : Env) (self : AdiRng) : ℕ :=
  (AdiRng.mixHasher env self).finish H

/-- The little-endian byte array `u64::to_le_bytes` of a digest. -/
def u64LEBytes (v : ℕ) : List ℕ :=
  [v % 256, v / 2 ^ 8 % 256, v / 2 ^ 16 % 256, v / 2 ^ 24 % 256,
   v / 2 ^ 32 % 256, v / 2 ^ 40 % 256, v / 2 ^ 48 % 256, v / 2 ^ 56 % 256]

/-- The shared `fill_bytes` loop over `dest.chunks_mut(4)`: for a buffer
with `n` bytes remaining and `i` chunks already written, draw the digest
for chunk `i` and copy the leading `chunk.len()` bytes of its
little-endian representation, then continue on the rest.  `digest i` is
the value of `self.hash_value()` at the i-th chunk (the ambient state can
change between draws, so digests are indexed by the draw count). -/
def fillChunks (digest : ℕ → ℕ) (i n : ℕ) : List ℕ :=
  if n = 0 then []
  else (u64LEBytes (digest i)).take (min 4 n) ++ fillChunks digest (i + 1) (n - 4)
termination_by n
decreasing_by omega

/-- The same loop with the two panic conditions made explicit: slicing
`&value.to_le_bytes()[..len]` demands `len` within the 8-byte array, and
`copy_from_slice` demands that the slice's length equal the chunk's.
Returns `none` where the Rust code would panic. -/
def fillChunksChecked (digest : ℕ → ℕ) (i n : ℕ) : Option (List ℕ) :=
  if n = 0 then some []
  else
    let len := min 4 n
    let bytes := u64LEBytes (digest i)
    if len ≤ bytes.length then
      let slice := bytes.take len
      if slice.length = len then
        match fillChunksChecked digest (i + 1) (n - 4) with
        | some rest => some (slice ++ rest)
        | none => none
      else none
    else none
termination_by n
decreasing_by omega

/-- The method `SystemRng::next_u32`: `self.hash_value() as u32`.  It takes
`&mut self`, so it returns the (unchanged) receiver alongside the value. -/
def SystemRng.next_u32 (H : List WriteOp → ℕ) (env : Env) (self : SystemRng) :
    ℕ × SystemRng :=
  (self.hash_value H env % 2 ^ 32, self)

/-- The method `SystemRng::next_u64`. -/
def SystemRng.next_u64 (H : List WriteOp → ℕ) (env : Env) (self : SystemRng) :
    ℕ × SystemRng :=
  (self.hash_value H env, self)

/-- The method `SystemRng::fill_bytes` on a destination buffer of length `n`; since
every byte of the destination is overwritten, the result is the list of
bytes written.  `envs i` is the ambient state at the i-th draw. -/
def SystemRng.fill_bytes (H : List WriteOp → ℕ) (envs : ℕ → Env)
    (self : SystemRng) (n : ℕ) : List ℕ × SystemRng :=
  (fillChunks (fun i => self.hash_value H (envs i)) 0 n, self)

/-- The method `SystemRng::try_fill_bytes`: `self.fill_bytes(dest); Ok(())`. -/
def SystemRng.try_fill_bytes (H : List WriteOp → ℕ) (envs : ℕ → Env)
    (self : SystemRng) (n : ℕ) : Except RandError Unit × List ℕ × SystemRng :=
  let r := self.fill_bytes H envs n
  (Except.ok (), r.1, r.2)

/-- The method `AdiRng::next_u32`: `self.hash_value() as u32`. -/
def AdiRng.next_u32 (H : List WriteOp → ℕ) (env : Env) (self : AdiRng) :
    ℕ × AdiRng :=
  (self.hash_value H env % 2 ^ 32, self)

/-- The method `AdiRng::next_u64`. -/
def AdiRng.next_u64 (H : List WriteOp → ℕ) (env : Env) (self : AdiRng) :
    ℕ × AdiRng :=
  (self.hash_value H env, self)

/-- The method `AdiRng::fill_bytes`. -/
def AdiRng.fill_bytes (H : List WriteOp → ℕ) (envs : ℕ → Env)
    (self : AdiRng) (n : ℕ) : List ℕ × AdiRng :=
  (fillChunks (fun i => self.hash_value H (envs i)) 0 n, self)

/-- The method `AdiRng::try_fill_bytes`: `self.fill_bytes(dest); Ok(())`. -/
def AdiRng.try_fill_bytes (H : List WriteOp → ℕ) (envs : ℕ → Env)
    (self : AdiRng) (n : ℕ) : Except RandError Unit × List ℕ × AdiRng :=
  let r := self.fill_bytes H envs n
  (Except.ok (), r.1, r.2)

/-! ### Spec-side description of the mixer input (for C1) -/

/-- The write sequence the specification prescribes for one draw: each
configured port's signed 32-bit reading in configuration order, then
battery voltage scaled by 1000 truncated to u32, then battery current
scaled by 1000 truncated to u32, then elapsed microseconds since
construction as u128, then the power-on counter as u64.  Written from the
spec's words, to be compared with the traces the code builds. -/
def specMixerTrace (portReadings : List ℤ) (env : Env) (time_of_creation : ℕ) :
    List WriteOp :=
  portReadings.map WriteOp.i32 ++
    [WriteOp.u32 (f64AsU32 (env.voltage * 1000)),
     WriteOp.u32 (f64AsU32 (env.current * 1000)),
     WriteOp.u128 (elapsedMicros env time_of_creation),
     WriteOp.u64 env.powerupTime]

lemma foldl_write_i32 (values : List ℤ) (h : Hasher) :
    (values.foldl (fun h v => h.write_i32 v) h).writes =
      h.writes ++ values.map WriteOp.i32 := by
  induction values generalizing h with
  | nil => simp
  | cons v vs ih =>
    rw [List.foldl_cons, ih]
    simp [Hasher.write_i32]

lemma adi_mixHasher_writes (env : Env) (self : AdiRng) :
    (AdiRng.mixHasher env self).writes =
      specMixerTrace (self.ports.map (readAdiPort env)) env self.time_of_creation := by
  simp [AdiRng.mixHasher, specMixerTrace, Hasher.new, Hasher.write_u32,
    Hasher.write_u64, Hasher.write_u128, foldl_write_i32]

lemma system_mixHasher_writes (env : Env) (self : SystemRng) :
    (SystemRng.mixHasher env self).writes =
      specMixerTrace [] env self.time_of_creation := by
  simp [SystemRng.mixHasher, specMixerTrace, Hasher.new, Hasher.write_u32,
    Hasher.write_u64, Hasher.write_u128]

/-- C1: every draw builds a fresh accumulator and feeds it, in order:
(port-sampling variant only) each configured port's signed 32-bit reading
in configuration order; then battery voltage scaled by 1000 truncated to
u32; then battery current scaled by 1000 truncated to u32; then elapsed
microseconds since construction as u128; then the power-on counter as u64;
finalizing that accumulator yields the digest the draw returns. -/
theorem mixer_write_order (H : List WriteOp → ℕ) (env : Env)
    (a : AdiRng) (s : SystemRng) :
    AdiRng.hash_value H env a =
        H (specMixerTrace (a.ports.map (readAdiPort env)) env a.time_of_creation) ∧
      SystemRng.hash_value H env s =
        H (specMixerTrace [] env s.time_of_creation) := by
  constructor
  · unfold AdiRng.hash_value Hasher.finish
    rw [adi_mixHasher_writes]
  · unfold SystemRng.hash_value Hasher.finish
    rw [system_mixHasher_writes]

/-- C3: `next_u32` returns exactly the low 32 bits of the digest that
`next_u64` returns on the same sampled inputs, for both variants. -/
theorem next_u32_low_bits (H : List WriteOp → ℕ) (env : Env)
    (s : SystemRng) (a : AdiRng) :
    (SystemRng.next_u32 H env s).1 = (SystemRng.next_u64 H env s).1 % 2 ^ 32 ∧
      (AdiRng.next_u32 H env a).1 = (AdiRng.next_u64 H env a).1 % 2 ^ 32 :=
  ⟨rfl, rfl⟩

/-- C5: `try_fill_bytes` writes exactly the bytes `fill_bytes` would write
on the same sampled inputs and always returns `Ok(())`; the error case is
never produced. -/
theorem try_fill_bytes_always_ok (H : List WriteOp → ℕ) (envs : ℕ → Env)
    (s : SystemRng) (a : AdiRng) (n : ℕ) :
    SystemRng.try_fill_bytes H envs s n =
        (Except.ok (), (SystemRng.fill_bytes H envs s n).1, s) ∧
      AdiRng.try_fill_bytes H envs a n =
        (Except.ok (), (AdiRng.fill_bytes H envs a n).1, a) :=
  ⟨rfl, rfl⟩

/-- C6: every draw operation returns the generator state unchanged, and
that state consists of nothing but the construction timestamp (plus, for
the port-sampling variant, the borrowed port list): no other state exists
to be carried between draws. -/
theorem draws_preserve_state (H : List WriteOp → ℕ) (env : Env)
    (envs : ℕ → Env) (s : SystemRng) (a : AdiRng) (n : ℕ) :
    (SystemRng.next_u32 H env s).2 = s ∧
      (SystemRng.next_u64 H env s).2 = s ∧
      (SystemRng.fill_bytes H envs s n).2 = s ∧
      (SystemRng.try_fill_bytes H envs s n).2.2 = s ∧
      (AdiRng.next_u32 H env a).2 = a ∧
      (AdiRng.next_u64 H env a).2 = a ∧
      (AdiRng.fill_bytes H envs a n).2 = a ∧
      (AdiRng.try_fill_bytes H envs a n).2.2 = a ∧
      (∀ s' : SystemRng, s = s' ↔ s.time_of_creation = s'.time_of_creation) ∧
      (∀ a' : AdiRng,
        a = a' ↔ a.ports = a'.ports ∧ a.time_of_creation = a'.time_of_creation) := by
  refine ⟨rfl, rfl, rfl, rfl, rfl, rfl, rfl, rfl, ?_, ?_⟩
  · intro s'
    cases s
    cases s'
    simp
  · intro a'
    cases a
    cases a'
    simp

/-! ### Byte-level description of `fill_bytes` (for C2 and C9) -/

/-- Byte `k` of the little-endian representation of a 64-bit value. -/
def leByte (v k : ℕ) : ℕ := v / 2 ^ (8 * k) % 256

/-- The spec-side description of the buffer `fill_bytes` produces: byte `j`
of the output is byte `j mod 4` of the little-endian representation of the
digest drawn for chunk `j / 4` — consecutive 4-byte chunks, one fresh
digest per chunk, leading bytes only.  Written from the spec's words. -/
def specFillBytes (digest : ℕ → ℕ) (n : ℕ) : List ℕ :=
  (List.range n).map (fun j => leByte (digest (j / 4)) (j % 4))

lemma u64LEBytes_eq_map_range (v : ℕ) :
    u64LEBytes v = (List.range 8).map (leByte v) := by
  simp [u64LEBytes, leByte, List.range_succ]

lemma fillChunks_eq_spec (digest : ℕ → ℕ) (n : ℕ) : ∀ i,
    fillChunks digest i n =
      (List.range n).map (fun j => leByte (digest (i + j / 4)) (j % 4)) := by
  induction n using Nat.strong_induction_on with
  | _ n ih =>
    intro i
    rw [fillChunks]
    by_cases h0 : n = 0
    · simp [h0]
    · simp only [h0, if_false]
      by_cases h4 : n ≤ 4
      · have hmin : min 4 n = n := by omega
        have hz : n - 4 = 0 := by omega
        rw [hz, fillChunks, if_pos rfl, u64LEBytes_eq_map_range, hmin,
          List.append_nil, ← List.map_take, List.take_range]
        have hmn : min n 8 = n := by omega
        rw [hmn]
        refine List.map_congr_left fun j hj => ?_
        rw [List.mem_range] at hj
        have hd : j / 4 = 0 := Nat.div_eq_of_lt (by omega)
        have hm : j % 4 = j := Nat.mod_eq_of_lt (by omega)
        rw [hd, hm, Nat.add_zero]
      · have hmin : min 4 n = 4 := by omega
        have hn : n = 4 + (n - 4) := by omega
        rw [hmin, ih (n - 4) (by omega) (i + 1)]
        conv_rhs => rw [hn]
        rw [List.range_add, List.map_append, List.map_map]
        congr 1
        · rw [u64LEBytes_eq_map_range, ← List.map_take, List.take_range]
          refine List.map_congr_left fun j hj => ?_
          rw [List.mem_range] at hj
          have hd : j / 4 = 0 := Nat.div_eq_of_lt (by omega)
          have hm : j % 4 = j := Nat.mod_eq_of_lt (by omega)
          simp only [hd, hm, Nat.add_zero]
        · refine List.map_congr_left fun j hj => ?_
          have hd : (4 + j) / 4 = j / 4 + 1 := by
            rw [Nat.add_comm 4 j, Nat.add_div_right _ (by omega)]
          have hm : (4 + j) % 4 = j % 4 := Nat.add_mod_left 4 j
          simp only [Function.comp, hd, hm]
          ring_nf

lemma fillChunks_length (digest : ℕ → ℕ) (n : ℕ) : ∀ i,
    (fillChunks digest i n).length = n := by
  induction n using Nat.strong_induction_on with
  | _ n ih =>
    intro i
    rw [fillChunks]
    by_cases h0 : n = 0
    · simp [h0]
    · simp only [h0, if_false, List.length_append, List.length_take,
        ih (n - 4) (by omega) (i + 1)]
      simp [u64LEBytes]
      omega

lemma fillChunksChecked_eq (digest : ℕ → ℕ) (n : ℕ) : ∀ i,
    fillChunksChecked digest i n = some (fillChunks digest i n) := by
  induction n using Nat.strong_induction_on with
  | _ n ih =>
    intro i
    rw [fillChunksChecked, fillChunks]
    by_cases h0 : n = 0
    · simp [h0]
    · have hlen : min 4 n ≤ (u64LEBytes (digest i)).length := by
        simp only [u64LEBytes, List.length_cons, List.length_nil]
        omega
      have htake : ((u64LEBytes (digest i)).take (min 4 n)).length = min 4 n := by
        simp only [List.length_take, u64LEBytes, List.length_cons, List.length_nil]
        omega
      simp only [h0, if_false, if_pos hlen, if_pos htake,
        ih (n - 4) (by omega) (i + 1)]

/-- C2: `fill_bytes` on a buffer of length `n` partitions it into
consecutive 4-byte chunks (the last possibly shorter), draws one fresh
digest per chunk, and writes the leading chunk-length bytes of that
digest's little-endian representation: byte `j` of the output is byte
`j mod 4` of the digest drawn for chunk `j / 4`. -/
theorem fill_bytes_per_chunk (H : List WriteOp → ℕ) (envs : ℕ → Env)
    (s : SystemRng) (a : AdiRng) (n : ℕ) :
    (SystemRng.fill_bytes H envs s n).1 =
        specFillBytes (fun i => s.hash_value H (envs i)) n ∧
      (AdiRng.fill_bytes H envs a n).1 =
        specFillBytes (fun i => a.hash_value H (envs i)) n := by
  constructor <;>
  · show fillChunks _ 0 n = _
    rw [fillChunks_eq_spec]
    simp [specFillBytes]

/-- C9: `fill_bytes` is total and panic-free for every buffer length: the
checked loop (which returns `none` exactly where the Rust slicing or
`copy_from_slice` would panic) always succeeds and produces the same
bytes, the output covers the whole buffer, and a length-0 buffer gets
nothing written. -/
theorem fill_bytes_total (H : List WriteOp → ℕ) (envs : ℕ → Env)
    (s : SystemRng) (a : AdiRng) (d : ℕ → ℕ) (i n : ℕ) :
    fillChunksChecked d i n = some (fillChunks d i n) ∧
      (fillChunks d i n).length = n ∧
      fillChunks d i 0 = [] ∧
      (SystemRng.fill_bytes H envs s n).1.length = n ∧
      (AdiRng.fill_bytes H envs a n).1.length = n :=
  ⟨fillChunksChecked_eq d n i, fillChunks_length d n i,
    by rw [fillChunks]; simp,
    fillChunks_length _ n 0, fillChunks_length _ n 0⟩

/-- C10: an `AdiRng` constructed with an empty port list behaves exactly
like a `SystemRng` built at the same timestamp: the hash values and the
values produced by every draw operation coincide on identical sampled
inputs. -/
theorem empty_ports_matches_system (H : List WriteOp → ℕ) (env : Env)
    (envs : ℕ → Env) (t n : ℕ) :
    AdiRng.hash_value H env ⟨[], t⟩ = SystemRng.hash_value H env ⟨t⟩ ∧
      (AdiRng.next_u32 H env ⟨[], t⟩).1 = (SystemRng.next_u32 H env ⟨t⟩).1 ∧
      (AdiRng.next_u64 H env ⟨[], t⟩).1 = (SystemRng.next_u64 H env ⟨t⟩).1 ∧
      (AdiRng.fill_bytes H envs ⟨[], t⟩ n).1 =
        (SystemRng.fill_bytes H envs ⟨t⟩ n).1 ∧
      (AdiRng.try_fill_bytes H envs ⟨[], t⟩ n).1 =
        (SystemRng.try_fill_bytes H envs ⟨t⟩ n).1 ∧
      (AdiRng.try_fill_bytes H envs ⟨[], t⟩ n).2.1 =
        (SystemRng.try_fill_bytes H envs ⟨t⟩ n).2.1 := by
  have hh : ∀ env' : Env,
      AdiRng.hash_value H env' ⟨[], t⟩ = SystemRng.hash_value H env' ⟨t⟩ := by
    intro env'
    unfold AdiRng.hash_value SystemRng.hash_value Hasher.finish
    rw [adi_mixHasher_writes, system_mixHasher_writes]
    simp
  have hd : (fun i => AdiRng.hash_value H (envs i) ⟨[], t⟩) =
      fun i => SystemRng.hash_value H (envs i) ⟨t⟩ :=
    funext fun i => hh (envs i)
  have hfill : (AdiRng.fill_bytes H envs ⟨[], t⟩ n).1 =
      (SystemRng.fill_bytes H envs ⟨t⟩ n).1 := by
    show fillChunks (fun i => AdiRng.hash_value H (envs i) ⟨[], t⟩) 0 n =
      fillChunks (fun i => SystemRng.hash_value H (envs i) ⟨t⟩) 0 n
    rw [hd]
  refine ⟨hh env, ?_, ?_, hfill, rfl, hfill⟩
  · show AdiRng.hash_value H env ⟨[], t⟩ % 2 ^ 32 = _
    rw [hh env]
    rfl
  · exact hh env

/-- C4: in the port-sampling variant, the reading fed to the hasher for
the port at position `i` is obtained from the hardware bus through the
device at the port's reported expander index when one is present, and
through the documented fallback index 21 when the port reports none. -/
theorem expander_fallback (env : Env) (a : AdiRng) (i : ℕ) (p : AdiPort)
    (hp : a.ports[i]? = some p) :
    (AdiRng.mixHasher env a).writes[i]? =
      some (WriteOp.i32 (env.adiValueGet
        (env.deviceByIndex
          (match p.expander_number with
           | none => 21
           | some e => e))
        p.number)) := by
  rw [adi_mixHasher_writes]
  unfold specMixerTrace
  have hi : i < a.ports.length := by
    by_contra hlt
    rw [List.getElem?_eq_none (by omega)] at hp
    exact Option.noConfusion hp
  rw [List.getElem?_append, if_pos (by simpa using hi), List.getElem?_map,
    List.getElem?_map, hp]
  cases hpe : p.expander_number <;> simp [readAdiPort, hpe]

/-- A concrete environment used to instantiate hypothesis-bearing
theorems. -/
def envW : Env :=
  ⟨6 / 5, 1 / 2, 100, 7, fun k => k + 1, fun d p => (d : ℤ) - p⟩

/-- Witness for C4: a port with no expander (number 3) is read through
device index 21, a port reporting expander 2 (number 4) through device
index 2. -/
theorem expander_fallback_witness :
    (AdiRng.mixHasher envW ⟨[⟨3, none⟩], 5⟩).writes[0]? =
        some (WriteOp.i32 (envW.adiValueGet (envW.deviceByIndex 21) 3)) ∧
      (AdiRng.mixHasher envW ⟨[⟨4, some 2⟩], 5⟩).writes[0]? =
        some (WriteOp.i32 (envW.adiValueGet (envW.deviceByIndex 2) 4)) :=
  ⟨by simpa using expander_fallback envW ⟨[⟨3, none⟩], 5⟩ 0 ⟨3, none⟩ rfl,
   by simpa using expander_fallback envW ⟨[⟨4, some 2⟩], 5⟩ 0 ⟨4, some 2⟩ rfl⟩

/-! ### Collision-free hash functions and the freshness properties (C7, C8) -/

/-- A concrete injective function from write traces to naturals, used to
instantiate the abstract hash function in witnesses of the freshness
theorems. -/
def encodeOp : WriteOp → ℕ
  | .i32 v => Nat.pair 0 (Encodable.encode v)
  | .u32 v => Nat.pair 1 v
  | .u64 v => Nat.pair 2 v
  | .u128 v => Nat.pair 3 v

def encodeTrace (l : List WriteOp) : ℕ := Encodable.encode (l.map encodeOp)

lemma encodeOp_injective : Function.Injective encodeOp := by
  intro a b h
  cases a <;> cases b <;>
    simp only [encodeOp, Nat.pair_eq_pair, Encodable.encode_inj] at h <;>
    simp_all

lemma encodeTrace_injective : Function.Injective encodeTrace := by
  intro l1 l2 h
  exact List.map_injective_iff.mpr encodeOp_injective (Encodable.encode_injective h)

lemma system_hash_value_eq_spec (H : List WriteOp → ℕ) (env : Env)
    (s : SystemRng) :
    SystemRng.hash_value H env s = H (specMixerTrace [] env s.time_of_creation) := by
  unfold SystemRng.hash_value Hasher.finish
  rw [system_mixHasher_writes]

lemma adi_hash_value_eq_spec (H : List WriteOp → ℕ) (env : Env)
    (a : AdiRng) :
    AdiRng.hash_value H env a =
      H (specMixerTrace (a.ports.map (readAdiPort env)) env a.time_of_creation) := by
  unfold AdiRng.hash_value Hasher.finish
  rw [adi_mixHasher_writes]

/-- C7: under a collision-free hash function, two draws sampling identical
signals (port readings, battery voltage, battery current, power-on
counter) but different elapsed-time-since-construction values produce
different digests, in both variants: the elapsed time is mixed into the
hasher input, so the two input traces provably differ. -/
theorem elapsed_time_distinguishes (H : List WriteOp → ℕ)
    (hH : Function.Injective H) (env1 env2 : Env)
    (s1 s2 : SystemRng) (a1 a2 : AdiRng)
    (hv : env1.voltage = env2.voltage) (hc : env1.current = env2.current)
    (hp : env1.powerupTime = env2.powerupTime)
    (hports : a1.ports.map (readAdiPort env1) = a2.ports.map (readAdiPort env2))
    (hes : elapsedMicros env1 s1.time_of_creation ≠
      elapsedMicros env2 s2.time_of_creation)
    (hea : elapsedMicros env1 a1.time_of_creation ≠
      elapsedMicros env2 a2.time_of_creation) :
    SystemRng.hash_value H env1 s1 ≠ SystemRng.hash_value H env2 s2 ∧
      AdiRng.hash_value H env1 a1 ≠ AdiRng.hash_value H env2 a2 := by
  constructor
  · intro heq
    rw [system_hash_value_eq_spec, system_hash_value_eq_spec] at heq
    have htr := hH heq
    simp only [specMixerTrace, List.map_nil, List.nil_append,
      List.cons.injEq, WriteOp.u128.injEq] at htr
    exact hes htr.2.2.1
  · intro heq
    rw [adi_hash_value_eq_spec, adi_hash_value_eq_spec] at heq
    have htr := hH heq
    rw [specMixerTrace, specMixerTrace, hports] at htr
    have htail := List.append_cancel_left htr
    simp only [List.cons.injEq, WriteOp.u128.injEq] at htail
    exact hea htail.2.2.1

/-- A second concrete environment: identical to `envW` in every sampled
signal except the monotonic-clock reading. -/
def envW2 : Env :=
  ⟨6 / 5, 1 / 2, 200, 7, fun k => k + 1, fun d p => (d : ℤ) - p⟩

/-- Witness for C7: with the injective trace encoding as hash function,
fixed battery and power-on readings, and the clock advanced from 100 to
200 microseconds, both variants' digests change. -/
theorem elapsed_time_distinguishes_witness :
    SystemRng.hash_value encodeTrace envW ⟨0⟩ ≠
        SystemRng.hash_value encodeTrace envW2 ⟨0⟩ ∧
      AdiRng.hash_value encodeTrace envW ⟨[], 0⟩ ≠
        AdiRng.hash_value encodeTrace envW2 ⟨[], 0⟩ :=
  elapsed_time_distinguishes encodeTrace encodeTrace_injective envW envW2
    ⟨0⟩ ⟨0⟩ ⟨[], 0⟩ ⟨[], 0⟩ rfl rfl rfl rfl (by decide) (by decide)

/-! ### Port order and the mixed trace (C8) -/

/-- A port on the fallback expander, numbered 1. -/
def portA : AdiPort := ⟨1, none⟩

/-- A port on the fallback expander, numbered 2. -/
def portB : AdiPort := ⟨2, none⟩

/-- An environment whose bus reports reading 0 on every port. -/
def envZero : Env := ⟨1, 1, 50, 3, fun k => k, fun _ _ => 0⟩

/-- An environment whose bus reports each port's number as its reading, so
distinct ports have distinct readings. -/
def envByPort : Env := ⟨1, 1, 50, 3, fun k => k, fun _ p => (p : ℤ)⟩

/-- Counterexample to C8 as stated: two generators configured with the
same two ports in opposite orders, over identical readings (the bus
reports 0 everywhere) and identical other signals, produce the same
hasher input and hence the same digest — even for an injective hash
function. -/
theorem port_order_collision :
    AdiRng.hash_value encodeTrace envZero ⟨[portA, portB], 0⟩ =
      AdiRng.hash_value encodeTrace envZero ⟨[portB, portA], 0⟩ := by
  rw [adi_hash_value_eq_spec, adi_hash_value_eq_spec]
  rfl

/-- C8 (amended): two port-sampling generators holding the same ports in
different orders, with identical construction timestamps and identical
underlying readings, produce different digests under a collision-free
hash function, provided the sequence of readings taken in configuration
order actually differs between the two orders (reordering ports whose
readings coincide cannot change the mixed trace). -/
theorem port_order_distinguishes (H : List WriteOp → ℕ)
    (hH : Function.Injective H) (env : Env) (a1 a2 : AdiRng)
    (hperm : a1.ports.Perm a2.ports)
    (ht : a1.time_of_creation = a2.time_of_creation)
    (hneq : a1.ports.map (readAdiPort env) ≠ a2.ports.map (readAdiPort env)) :
    AdiRng.hash_value H env a1 ≠ AdiRng.hash_value H env a2 := by
  intro heq
  rw [adi_hash_value_eq_spec, adi_hash_value_eq_spec] at heq
  have htr := hH heq
  unfold specMixerTrace at htr
  have hlen : (List.map WriteOp.i32 (a1.ports.map (readAdiPort env))).length =
      (List.map WriteOp.i32 (a2.ports.map (readAdiPort env))).length := by
    simp [hperm.length_eq]
  have hheads := (List.append_inj htr hlen).1
  exact hneq (List.map_injective_iff.mpr (fun x y h => by
    cases x <;> cases y <;> simp_all) hheads)

/-- Witness for C8 (amended): swapping two ports whose readings are 1 and
2 changes the digest computed with the injective trace encoding. -/
theorem port_order_distinguishes_witness :
    AdiRng.hash_value encodeTrace envByPort ⟨[portA, portB], 0⟩ ≠
      AdiRng.hash_value encodeTrace envByPort ⟨[portB, portA], 0⟩ :=
  port_order_distinguishes encodeTrace encodeTrace_injective envByPort
    ⟨[portA, portB], 0⟩ ⟨[portB, portA], 0⟩
    (List.Perm.swap portB portA []) rfl (by decide)
